import Mathlib

/-!
Verification of the distributed Game of Life engine (`life_mpi.py`, 1-D
row-strip decomposition, and `life_mpi_2d.py`, 2-D Cartesian decomposition).

The Python code is shallowly embedded: grids and halo-padded patches are
total functions `Nat → Nat → Nat` (only in-range indices are ever read),
machine integers are `Nat`/`Int`, and Python's `%` on a positive modulus is
`Int.emod` (both return a non-negative remainder).  The net effect of each
MPI exchange (matching `Isend`/`Irecv` pairs by source, destination and tag)
is modelled as a global transformer on the family of per-rank patches; all
sends read the pre-exchange state, as the code copies its send buffers
before posting.
-/

namespace GOL

/-- Python's `%` for a non-negative result:  `a % n` on `Int` (`Int.emod`)
agrees with Python's `%` whenever the modulus `n` is positive. -/
def pmod (a : Int) (n : Nat) : Nat := (a % (n : Int)).toNat

/-- The Moore-neighbourhood offsets `(di, dj)` in the iteration order of the
source (`for di in [-1,0,1]: for dj in [-1,0,1]:` skipping `(0,0)`). -/
def mooreOffsets : List (Int × Int) :=
  [(-1,-1), (-1,0), (-1,1), (0,-1), (0,1), (1,-1), (1,0), (1,1)]

/-- `update_cell` from `life_mpi.py` line 114 / `life_mpi_2d.py` line 123:
the B3/S23 rule for one cell. -/
def update_cell (current neighbors : Nat) : Nat :=
  if current = 1 then
    if neighbors = 2 ∨ neighbors = 3 then 1 else 0
  else
    if neighbors = 3 then 1 else 0

/-- The neighbour sum computed inside `compute_next_generation`
(`life_mpi.py` lines 133-140): row indices are used as they come (halo rows
supply the vertical boundary), column indices wrap via `(j + dj) % nx`. -/
def neighborCount1d (lg : Nat → Nat → Nat) (nx i j : Nat) : Nat :=
  (mooreOffsets.map (fun d =>
    lg ((i : Int) + d.1).toNat (pmod ((j : Int) + d.2) nx))).sum

/-- `compute_next_generation` from `life_mpi.py` lines 122-144, expressed at
output coordinates: `next_gen[i, j] = update_cell(local_grid[i+1, j], s)`
where `s` sums the eight neighbours of padded cell `(i+1, j)`. -/
def compute_next_generation (lg : Nat → Nat → Nat) (nx i j : Nat) : Nat :=
  update_cell (lg (i + 1) j) (neighborCount1d lg nx (i + 1) j)

/-- The neighbour sum of `compute_next_generation_2d` (`life_mpi_2d.py`
lines 143-148): plain indexing on the halo-padded patch, no wrapping. -/
def neighborCount2d (lg : Nat → Nat → Nat) (i j : Nat) : Nat :=
  (mooreOffsets.map (fun d =>
    lg ((i : Int) + d.1).toNat ((j : Int) + d.2).toNat)).sum

/-- `compute_next_generation_2d` from `life_mpi_2d.py` lines 131-152, at
output coordinates `(i, j)` (padded cell `(i+1, j+1)`). -/
def compute_next_generation_2d (lg : Nat → Nat → Nat) (i j : Nat) : Nat :=
  update_cell (lg (i + 1) (j + 1)) (neighborCount2d lg (i + 1) (j + 1))

/-- The global B3/S23 neighbour sum with toroidal wrap, following the
specification's description of the rule on the global grid. -/
def neighborCountGlobal (ny nx : Nat) (G : Nat → Nat → Nat) (y x : Nat) : Nat :=
  (mooreOffsets.map (fun d =>
    G (pmod ((y : Int) + d.1) ny) (pmod ((x : Int) + d.2) nx))).sum

/-- One global application of the rule on the `(ny, nx)` torus, following
the specification's words; the refinement theorems compare the distributed
pipelines against iterates of this function. -/
def globalStep (ny nx : Nat) (G : Nat → Nat → Nat) (y x : Nat) : Nat :=
  update_cell (G y x) (neighborCountGlobal ny nx G y x)

/-- `k` sequential global applications of the rule. -/
def globalIter (ny nx : Nat) (G : Nat → Nat → Nat) : Nat → Nat → Nat → Nat
  | 0 => G
  | k + 1 => globalStep ny nx (globalIter ny nx G k)

/-- The remainder rule of both `main`s: rank `r` (or process row/column `r`)
receives `n / p + 1` rows when `r < n % p` and `n / p` rows otherwise
(`life_mpi.py` lines 250-258, `life_mpi_2d.py` lines 320-327). -/
def rcnt (n p r : Nat) : Nat := if r < n % p then n / p + 1 else n / p

/-- The cumulative offsets (`displacements` in `life_mpi.py` lines 253-261,
`row_start`/`col_start` in `life_mpi_2d.py` lines 330-333). -/
def rstart (n p : Nat) : Nat → Nat
  | 0 => 0
  | r + 1 => rstart n p r + rcnt n p r

/-- The largest rank `r ≤ bound` whose strip starts at or before `y`;
used to invert the concatenation performed by the gather. -/
def ownerAux (n p y : Nat) : Nat → Nat
  | 0 => 0
  | r + 1 => if rstart n p (r + 1) ≤ y then r + 1 else ownerAux n p y r

/-- The rank owning global row (or column) `y` under the remainder rule. -/
def owner (n p y : Nat) : Nat := ownerAux n p y (p - 1)

/-- `(rank - 1) % size` from `life_mpi.py` line 155 (Python's `%` is
non-negative, so rank 0 wraps to `size - 1`). -/
def topNbr (size r : Nat) : Nat := pmod ((r : Int) - 1) size

/-- `(rank + 1) % size` from `life_mpi.py` line 156. -/
def botNbr (size r : Nat) : Nat := (r + 1) % size

/-- The per-rank halo-padded patches right after the `Scatterv` and the
zero-filled halo allocation (`life_mpi.py` lines 269-289): padded rows
`1 .. rcnt` hold the rank's strip of the global grid, all other cells are
the `np.zeros` fill. -/
def scatterPatches (ny nx size : Nat) (G : Nat → Nat → Nat)
    (r i j : Nat) : Nat :=
  if 1 ≤ i ∧ i ≤ rcnt ny size r ∧ j < nx then
    G (rstart ny size r + (i - 1)) j
  else 0

/-- Net effect of `exchange_halo` (`life_mpi.py` lines 147-175): padded row
`0` receives the top neighbour's last real row (sent with tag 0, received
into `recv_buf_top`), padded row `rcnt + 1` receives the bottom neighbour's
first real row (tag 1); every other cell is untouched.  All reads are from
the pre-exchange state. -/
def exchangeHalo (ny size : Nat) (ps : Nat → Nat → Nat → Nat)
    (r i j : Nat) : Nat :=
  if i = 0 then ps (topNbr size r) (rcnt ny size (topNbr size r)) j
  else if i = rcnt ny size r + 1 then ps (botNbr size r) 1 j
  else ps r i j

/-- One step of the 1-D main loop (`life_mpi.py` lines 307-312): the kernel
output overwrites the interior rows, halo rows keep their stale values. -/
def stepPatches (ny nx size : Nat) (ps : Nat → Nat → Nat → Nat)
    (r i j : Nat) : Nat :=
  if 1 ≤ i ∧ i ≤ rcnt ny size r ∧ j < nx then
    compute_next_generation (ps r) nx (i - 1) j
  else ps r i j

/-- The distributed 1-D state after `k` generations: scatter, initial halo
exchange, then `k` iterations of (kernel; interior update; halo exchange).
The code elides the final exchange, but the gather reads only interior
rows, which the exchange never touches. -/
def simulate (ny nx size : Nat) (G : Nat → Nat → Nat) :
    Nat → Nat → Nat → Nat → Nat
  | 0 => exchangeHalo ny size (scatterPatches ny nx size G)
  | k + 1 => exchangeHalo ny size (stepPatches ny nx size (simulate ny nx size G k))

/-- `gather_grid` (`life_mpi.py` lines 178-206): `Gatherv` concatenates the
interior rows of every rank at displacement `rstart r * nx`, so global cell
`(y, x)` comes from the rank owning row `y`, at padded row
`y - rstart + 1`. -/
def gatherGrid (ny size : Nat) (ps : Nat → Nat → Nat → Nat)
    (y x : Nat) : Nat :=
  ps (owner ny size y) (y - rstart ny size (owner ny size y) + 1) x

/-- The per-rank halo-padded patches of the 2-D code right after the
point-to-point distribution and the zero-filled halo allocation
(`life_mpi_2d.py` lines 336-361): rank at Cartesian coordinates
`(py, px)` holds the rectangle of the global grid starting at
`(rstart ny Py py, rstart nx Px px)` in its padded interior. -/
def scatterPatches2d (ny nx Py Px : Nat) (G : Nat → Nat → Nat)
    (py px i j : Nat) : Nat :=
  if 1 ≤ i ∧ i ≤ rcnt ny Py py ∧ 1 ≤ j ∧ j ≤ rcnt nx Px px then
    G (rstart ny Py py + (i - 1)) (rstart nx Px px + (j - 1))
  else 0

/-- Net effect of `exchange_halo_2d` (`life_mpi_2d.py` lines 155-230).
Matching the eight tagged send/receive pairs: the north halo row receives
the north neighbour's last real row, the west halo column receives the west
neighbour's last real column, the NW halo corner receives the NW
neighbour's SE interior cell, and symmetrically for the other directions.
All reads are from the pre-exchange state. -/
def exchangeHalo2d (ny nx Py Px : Nat) (ps : Nat → Nat → Nat → Nat → Nat)
    (py px i j : Nat) : Nat :=
  if i = 0 ∧ j = 0 then
    ps (topNbr Py py) (topNbr Px px)
      (rcnt ny Py (topNbr Py py)) (rcnt nx Px (topNbr Px px))
  else if i = 0 ∧ j = rcnt nx Px px + 1 then
    ps (topNbr Py py) (botNbr Px px) (rcnt ny Py (topNbr Py py)) 1
  else if i = rcnt ny Py py + 1 ∧ j = 0 then
    ps (botNbr Py py) (topNbr Px px) 1 (rcnt nx Px (topNbr Px px))
  else if i = rcnt ny Py py + 1 ∧ j = rcnt nx Px px + 1 then
    ps (botNbr Py py) (botNbr Px px) 1 1
  else if i = 0 then
    ps (topNbr Py py) px (rcnt ny Py (topNbr Py py)) j
  else if i = rcnt ny Py py + 1 then
    ps (botNbr Py py) px 1 j
  else if j = 0 then
    ps py (topNbr Px px) i (rcnt nx Px (topNbr Px px))
  else if j = rcnt nx Px px + 1 then
    ps py (botNbr Px px) i 1
  else ps py px i j

/-- One step of the 2-D main loop (`life_mpi_2d.py` lines 377-382): the
kernel output overwrites the interior cells, halo cells keep their stale
values. -/
def stepPatches2d (ny nx Py Px : Nat) (ps : Nat → Nat → Nat → Nat → Nat)
    (py px i j : Nat) : Nat :=
  if 1 ≤ i ∧ i ≤ rcnt ny Py py ∧ 1 ≤ j ∧ j ≤ rcnt nx Px px then
    compute_next_generation_2d (ps py px) (i - 1) (j - 1)
  else ps py px i j

/-- The distributed 2-D state after `k` generations, indexed by Cartesian
coordinates: scatter, initial halo exchange, then `k` iterations of
(kernel; interior update; halo exchange). -/
def simulate2d (ny nx Py Px : Nat) (G : Nat → Nat → Nat) :
    Nat → Nat → Nat → Nat → Nat → Nat
  | 0 => exchangeHalo2d ny nx Py Px (scatterPatches2d ny nx Py Px G)
  | k + 1 =>
    exchangeHalo2d ny nx Py Px
      (stepPatches2d ny nx Py Px (simulate2d ny nx Py Px G k))

/-- `gather_grid_2d` (`life_mpi_2d.py` lines 233-277): root places the
interior of the patch at coordinates `(proc_row, proc_col)` into the
rectangle starting at `(row_start, col_start)`, so global cell `(y, x)`
comes from the patch owning row `y` and column `x`. -/
def gatherGrid2d (ny nx Py Px : Nat) (ps : Nat → Nat → Nat → Nat → Nat)
    (y x : Nat) : Nat :=
  ps (owner ny Py y) (owner nx Px x)
    (y - rstart ny Py (owner ny Py y) + 1)
    (x - rstart nx Px (owner nx Px x) + 1)

/-- Translation of a toroidal grid by `(dy, dx)`: the pattern of `G` moved
down by `dy` and right by `dx`, with wrap modulo `(ny, nx)`. -/
def translate (ny nx : Nat) (dy dx : Int) (G : Nat → Nat → Nat)
    (y x : Nat) : Nat :=
  G (pmod ((y : Int) - dy) ny) (pmod ((x : Int) - dx) nx)

/-- A 2×2 block of live cells with corner at the origin. -/
def blockGrid (y x : Nat) : Nat := if y < 2 ∧ x < 2 then 1 else 0

/-- A horizontal blinker (three live cells in a row) at the origin. -/
def blinkerGrid (y x : Nat) : Nat := if y = 0 ∧ x < 3 then 1 else 0

/-- The vertical phase of the origin blinker on an `ny`-row torus: column 1,
rows `ny - 1`, `0`, `1`. -/
def vblinkerGrid (ny y x : Nat) : Nat :=
  if (y = 0 ∨ y = 1 ∨ y = ny - 1) ∧ x = 1 then 1 else 0

/-! ### Arithmetic toolkit for `pmod` and the remainder rule -/

lemma pmod_lt (a : Int) {n : Nat} (hn : 0 < n) : pmod a n < n := by
  have h1 : 0 ≤ a % (n : Int) := Int.emod_nonneg a (by omega)
  have h2 : a % (n : Int) < (n : Int) := Int.emod_lt_of_pos a (by omega)
  unfold pmod
  omega

lemma pmod_of_lt {a n : Nat} (h : a < n) : pmod (a : Int) n = a := by
  unfold pmod
  rw [Int.emod_eq_of_lt (by omega) (by exact_mod_cast h)]
  omega

lemma coe_pmod (a : Int) {n : Nat} (hn : 0 < n) :
    ((pmod a n : Nat) : Int) = a % (n : Int) := by
  have h1 : 0 ≤ a % (n : Int) := Int.emod_nonneg a (by omega)
  unfold pmod
  omega

lemma pmod_add_nat (a : Int) {n : Nat} (hn : 0 < n) :
    pmod (a + (n : Int)) n = pmod a n := by
  unfold pmod
  rw [show a + (n : Int) = a + (n : Int) * 1 by ring, Int.add_mul_emod_self_left]

lemma pmod_neg_one {n : Nat} (hn : 0 < n) : pmod (-1) n = n - 1 := by
  have h : (-1 : Int) = ((n - 1 : Nat) : Int) + (n : Int) * (-1) := by omega
  unfold pmod
  rw [h, Int.add_mul_emod_self_left, Int.emod_eq_of_lt (by omega) (by omega)]
  omega

lemma pmod_emod_add (a b : Int) {n : Nat} (hn : 0 < n) :
    pmod (((pmod a n : Nat) : Int) + b) n = pmod (a + b) n := by
  rw [coe_pmod a hn]
  unfold pmod
  rw [Int.emod_add_emod]

/-! ### The remainder rule: counts and offsets -/

lemma rstart_succ (n p r : Nat) :
    rstart n p (r + 1) = rstart n p r + rcnt n p r := rfl

lemma rstart_closed (n p : Nat) :
    ∀ r, rstart n p r = r * (n / p) + min r (n % p) := by
  intro r
  induction r with
  | zero => simp [rstart]
  | succ r ih =>
    have h : (r + 1) * (n / p) = r * (n / p) + n / p := by ring
    rw [rstart_succ, ih]
    unfold rcnt
    split_ifs <;> omega

lemma rstart_last {n p : Nat} (hp : 0 < p) : rstart n p p = n := by
  have h1 := Nat.div_add_mod n p
  have h2 := Nat.mod_lt n hp
  rw [rstart_closed]
  have h3 : p * (n / p) = n / p * p := Nat.mul_comm _ _
  omega

lemma rstart_add (n p r : Nat) :
    ∀ d, rstart n p r ≤ rstart n p (r + d) := by
  intro d
  induction d with
  | zero => exact Nat.le_refl _
  | succ d ih =>
    calc rstart n p r ≤ rstart n p (r + d) := ih
      _ ≤ rstart n p (r + d) + rcnt n p (r + d) := Nat.le_add_right _ _
      _ = rstart n p (r + d + 1) := (rstart_succ n p (r + d)).symm

lemma rstart_mono (n p : Nat) {r s : Nat} (h : r ≤ s) :
    rstart n p r ≤ rstart n p s := by
  have h1 := rstart_add n p r (s - r)
  rwa [show r + (s - r) = s by omega] at h1

lemma rcnt_pos {n p : Nat} (hp : 0 < p) (hpn : p ≤ n) (r : Nat) :
    1 ≤ rcnt n p r := by
  have h1 : 1 ≤ n / p := (Nat.one_le_div_iff hp).mpr hpn
  unfold rcnt
  split_ifs <;> omega

lemma rstart_succ_le {n p : Nat} (hp : 0 < p) {r : Nat} (hr : r < p) :
    rstart n p (r + 1) ≤ n := by
  calc rstart n p (r + 1) ≤ rstart n p p := rstart_mono n p (by omega)
    _ = n := rstart_last hp

lemma ownerAux_spec (n p y : Nat) :
    ∀ r, y < rstart n p (r + 1) →
      ownerAux n p y r ≤ r ∧ rstart n p (ownerAux n p y r) ≤ y ∧
        y < rstart n p (ownerAux n p y r + 1) := by
  intro r
  induction r with
  | zero =>
    intro h
    refine ⟨Nat.le_refl _, ?_, ?_⟩
    · simp [ownerAux, rstart]
    · simpa [ownerAux] using h
  | succ r ih =>
    intro h
    unfold ownerAux
    split_ifs with h1
    · exact ⟨Nat.le_refl _, h1, h⟩
    · have h2 : y < rstart n p (r + 1) := by omega
      obtain ⟨g1, g2, g3⟩ := ih h2
      exact ⟨by omega, g2, g3⟩

lemma owner_spec {n p : Nat} (hp : 0 < p) {y : Nat} (hy : y < n) :
    owner n p y < p ∧ rstart n p (owner n p y) ≤ y ∧
      y < rstart n p (owner n p y) + rcnt n p (owner n p y) := by
  have hpe : p - 1 + 1 = p := by omega
  have h : y < rstart n p (p - 1 + 1) := by
    rw [hpe, rstart_last hp]; exact hy
  obtain ⟨h1, h2, h3⟩ := ownerAux_spec n p y (p - 1) h
  rw [rstart_succ] at h3
  unfold owner
  exact ⟨by omega, h2, h3⟩

/-! ### Periodic topology -/

lemma topNbr_zero {size : Nat} (hp : 0 < size) : topNbr size 0 = size - 1 := by
  unfold topNbr
  exact_mod_cast pmod_neg_one hp

lemma topNbr_pos {size r : Nat} (h0 : 0 < r) (hr : r < size) :
    topNbr size r = r - 1 := by
  unfold topNbr
  rw [show (r : Int) - 1 = ((r - 1 : Nat) : Int) by omega]
  exact pmod_of_lt (by omega)

lemma topNbr_lt {size r : Nat} (hp : 0 < size) : topNbr size r < size :=
  pmod_lt _ hp

lemma botNbr_last {size : Nat} (hp : 0 < size) : botNbr size (size - 1) = 0 := by
  unfold botNbr
  rw [show size - 1 + 1 = size by omega, Nat.mod_self]

lemma botNbr_mid {size r : Nat} (hr : r + 1 < size) : botNbr size r = r + 1 :=
  Nat.mod_eq_of_lt hr

lemma botNbr_lt {size r : Nat} (hp : 0 < size) : botNbr size r < size :=
  Nat.mod_lt _ hp

/-- The last owned row of the top neighbour sits at the torus-adjacent
global row just above the strip of rank `r`. -/
lemma top_adjacent {n p : Nat} (hp : 0 < p) (hpn : p ≤ n) {r : Nat}
    (hr : r < p) :
    rstart n p (topNbr p r) + rcnt n p (topNbr p r) - 1
      = pmod ((rstart n p r : Int) - 1) n := by
  have hn : 0 < n := by omega
  rcases Nat.eq_zero_or_pos r with h0 | h0
  · subst h0
    rw [topNbr_zero hp, show rstart n p 0 = 0 from rfl]
    have h1 : rstart n p (p - 1) + rcnt n p (p - 1) = n := by
      rw [← rstart_succ, show p - 1 + 1 = p by omega, rstart_last hp]
    simp only [Nat.cast_zero, zero_sub]
    rw [pmod_neg_one hn]
    omega
  · rw [topNbr_pos h0 hr]
    have h1 : rstart n p (r - 1) + rcnt n p (r - 1) = rstart n p r := by
      rw [← rstart_succ, show r - 1 + 1 = r by omega]
    have h2 : 1 ≤ rcnt n p 0 := rcnt_pos hp hpn 0
    have h3 : rstart n p 1 ≤ rstart n p r := rstart_mono n p (by omega)
    have h4 : rstart n p 1 = rstart n p 0 + rcnt n p 0 := rstart_succ n p 0
    have h4b : rstart n p 0 = 0 := rfl
    have h5 : rstart n p r + rcnt n p r ≤ n := by
      rw [← rstart_succ]; exact rstart_succ_le hp hr
    have h6 : 1 ≤ rcnt n p r := rcnt_pos hp hpn r
    rw [show (rstart n p r : Int) - 1 = ((rstart n p r - 1 : Nat) : Int) by omega]
    rw [pmod_of_lt (by omega)]
    omega

/-- The first owned row of the bottom neighbour sits at the torus-adjacent
global row just below the strip of rank `r`. -/
lemma bot_adjacent {n p : Nat} (hp : 0 < p) (hpn : p ≤ n) {r : Nat}
    (hr : r < p) :
    rstart n p (botNbr p r)
      = pmod ((rstart n p r + rcnt n p r : Nat) : Int) n := by
  have hn : 0 < n := by omega
  rcases Nat.lt_or_ge (r + 1) p with h0 | h0
  · rw [botNbr_mid h0, rstart_succ]
    have h5 : rstart n p (r + 1) + rcnt n p (r + 1) ≤ n := by
      rw [← rstart_succ]; exact rstart_succ_le hp h0
    have h6 : 1 ≤ rcnt n p (r + 1) := rcnt_pos hp hpn (r + 1)
    rw [pmod_of_lt (by rw [← rstart_succ]; omega)]
  · have hlast : r = p - 1 := by omega
    subst hlast
    rw [botNbr_last hp, show rstart n p 0 = 0 from rfl]
    have h1 : rstart n p (p - 1) + rcnt n p (p - 1) = n := by
      rw [← rstart_succ, show p - 1 + 1 = p by omega, rstart_last hp]
    rw [h1, show ((n : Nat) : Int) = 0 + (n : Int) by omega, pmod_add_nat 0 hn]
    exact (pmod_of_lt hn).symm ▸ pmod_of_lt hn

/-! ### The 1-D refinement invariant -/

/-- The interior rows of every rank's patch agree with the strips of a
global grid `Gk`. -/
def InteriorMatch (ny nx size : Nat) (Gk : Nat → Nat → Nat)
    (ps : Nat → Nat → Nat → Nat) : Prop :=
  ∀ r, r < size → ∀ i, 1 ≤ i → i ≤ rcnt ny size r → ∀ j, j < nx →
    ps r i j = Gk (rstart ny size r + (i - 1)) j

/-- Every padded row of every rank's patch (halo rows included) agrees with
the toroidally-wrapped window of a global grid `Gk`. -/
def WindowInv (ny nx size : Nat) (Gk : Nat → Nat → Nat)
    (ps : Nat → Nat → Nat → Nat) : Prop :=
  ∀ r, r < size → ∀ i, i ≤ rcnt ny size r + 1 → ∀ j, j < nx →
    ps r i j = Gk (pmod ((rstart ny size r : Int) + (i : Int) - 1) ny) j

/-- After `exchange_halo`, patches whose interiors are strips of `Gk` become
full wrapped windows of `Gk`: the halo-consistency invariant. -/
lemma exchange_establishes {ny nx size : Nat} (hp : 0 < size)
    (hpn : size ≤ ny) {Gk : Nat → Nat → Nat} {ps : Nat → Nat → Nat → Nat}
    (h : InteriorMatch ny nx size Gk ps) :
    WindowInv ny nx size Gk (exchangeHalo ny size ps) := by
  have hn : 0 < ny := by omega
  intro r hr i hi j hj
  unfold exchangeHalo
  split_ifs with h0 hb
  · subst h0
    have htl : topNbr size r < size := topNbr_lt hp
    have htc : 1 ≤ rcnt ny size (topNbr size r) := rcnt_pos hp hpn _
    rw [h (topNbr size r) htl (rcnt ny size (topNbr size r)) htc (Nat.le_refl _) j hj]
    rw [show rstart ny size (topNbr size r) + (rcnt ny size (topNbr size r) - 1)
        = rstart ny size (topNbr size r) + rcnt ny size (topNbr size r) - 1 by omega]
    rw [top_adjacent hp hpn hr]
    norm_num
  · subst hb
    have hbl : botNbr size r < size := botNbr_lt hp
    have hbc : 1 ≤ rcnt ny size (botNbr size r) := rcnt_pos hp hpn _
    rw [h (botNbr size r) hbl 1 (Nat.le_refl _) hbc j hj]
    rw [show rstart ny size (botNbr size r) + (1 - 1) = rstart ny size (botNbr size r) by omega]
    rw [bot_adjacent hp hpn hr]
    congr 1
    push_cast
    ring_nf
  · have h1 : 1 ≤ i := by omega
    have h2 : i ≤ rcnt ny size r := by omega
    rw [h r hr i h1 h2 j hj]
    have h5 : rstart ny size r + rcnt ny size r ≤ ny := by
      rw [← rstart_succ]; exact rstart_succ_le hp hr
    rw [show (rstart ny size r : Int) + (i : Int) - 1
        = ((rstart ny size r + (i - 1) : Nat) : Int) by omega]
    rw [pmod_of_lt (by omega)]

/-- Reading one wrapped neighbour of an interior cell through the window
invariant gives the global grid at the corresponding wrapped position. -/
lemma window_read {ny nx size : Nat} {Gk : Nat → Nat → Nat}
    {ps : Nat → Nat → Nat → Nat} (h : WindowInv ny nx size Gk ps)
    {r : Nat} (hr : r < size) {i j : Nat} (hi1 : 1 ≤ i)
    (hi2 : i ≤ rcnt ny size r) (hj : j < nx) (hnx : 0 < nx)
    {d : Int × Int} (hd : d ∈ mooreOffsets) :
    ps r ((i : Int) + d.1).toNat (pmod ((j : Int) + d.2) nx)
      = Gk (pmod (((rstart ny size r + (i - 1) : Nat) : Int) + d.1) ny)
          (pmod ((j : Int) + d.2) nx) := by
  have hd1 : -1 ≤ d.1 ∧ d.1 ≤ 1 := by
    fin_cases hd <;> simp
  have hnn : 0 ≤ (i : Int) + d.1 := by omega
  have hle : ((i : Int) + d.1).toNat ≤ rcnt ny size r + 1 := by omega
  rw [h r hr _ hle _ (pmod_lt _ hnx)]
  congr 2
  omega

/-- Under the window invariant, the 1-D kernel evaluated at interior cell
`(i, j)` computes one global rule application at the cell's global
coordinates. -/
lemma kernel_computes {ny nx size : Nat} (hp : 0 < size) (hpn : size ≤ ny)
    (hnx : 0 < nx) {Gk : Nat → Nat → Nat} {ps : Nat → Nat → Nat → Nat}
    (h : WindowInv ny nx size Gk ps) {r : Nat} (hr : r < size) {i j : Nat}
    (hi1 : 1 ≤ i) (hi2 : i ≤ rcnt ny size r) (hj : j < nx) :
    compute_next_generation (ps r) nx (i - 1) j
      = globalStep ny nx Gk (rstart ny size r + (i - 1)) j := by
  have hn : 0 < ny := by omega
  have hylt : rstart ny size r + (i - 1) < ny := by
    have h5 : rstart ny size r + rcnt ny size r ≤ ny := by
      rw [← rstart_succ]; exact rstart_succ_le hp hr
    omega
  unfold compute_next_generation globalStep
  have hc : ps r (i - 1 + 1) j = Gk (rstart ny size r + (i - 1)) j := by
    rw [show i - 1 + 1 = i by omega]
    rw [h r hr i (by omega) j hj]
    congr 1
    rw [show (rstart ny size r : Int) + (i : Int) - 1
        = ((rstart ny size r + (i - 1) : Nat) : Int) by omega]
    exact pmod_of_lt hylt
  rw [hc]
  congr 1
  unfold neighborCount1d neighborCountGlobal
  congr 1
  apply List.map_congr_left
  intro d hd
  rw [show i - 1 + 1 = i by omega]
  exact window_read h hr hi1 hi2 hj hnx hd

/-- One distributed 1-D step starting from a window-invariant state leaves
the interiors holding the strips of the globally stepped grid. -/
lemma step_interior_match {ny nx size : Nat} (hp : 0 < size)
    (hpn : size ≤ ny) {Gk : Nat → Nat → Nat} {ps : Nat → Nat → Nat → Nat}
    (h : WindowInv ny nx size Gk ps) :
    InteriorMatch ny nx size (globalStep ny nx Gk)
      (stepPatches ny nx size ps) := by
  intro r hr i h1 h2 j hj
  unfold stepPatches
  rw [if_pos ⟨h1, h2, hj⟩]
  exact kernel_computes hp hpn (by omega) h hr h1 h2 hj

/-- The scatter places the strips of the initial grid into the interiors. -/
lemma scatter_interior_match (ny nx size : Nat) (G : Nat → Nat → Nat) :
    InteriorMatch ny nx size G (scatterPatches ny nx size G) := by
  intro r hr i h1 h2 j hj
  unfold scatterPatches
  rw [if_pos ⟨h1, h2, hj⟩]

/-- Main 1-D simulation invariant: after `k` distributed generations every
padded patch is the wrapped window of `k` global rule applications. -/
lemma simulate_inv {ny nx size : Nat} (hp : 0 < size) (hpn : size ≤ ny)
    (hnx : 0 < nx) (G : Nat → Nat → Nat) :
    ∀ k, WindowInv ny nx size (globalIter ny nx G k) (simulate ny nx size G k) := by
  intro k
  induction k with
  | zero =>
    exact exchange_establishes hp hpn (scatter_interior_match ny nx size G)
  | succ k ih =>
    exact exchange_establishes hp hpn (step_interior_match hp hpn ih)

/-! ### The 2-D refinement invariant -/

/-- An in-range padded index wraps to the plain global index. -/
lemma pmod_interior {n p : Nat} (hp : 0 < p) {r : Nat} (hr : r < p)
    {i : Nat} (h1 : 1 ≤ i) (h2 : i ≤ rcnt n p r) :
    pmod ((rstart n p r : Int) + (i : Int) - 1) n = rstart n p r + (i - 1) := by
  have h5 : rstart n p r + rcnt n p r ≤ n := by
    rw [← rstart_succ]; exact rstart_succ_le hp hr
  rw [show (rstart n p r : Int) + (i : Int) - 1
      = ((rstart n p r + (i - 1) : Nat) : Int) by omega]
  exact pmod_of_lt (by omega)

/-- The wrapped index just above a strip is the top neighbour's last row. -/
lemma pmod_halo_top {n p : Nat} (hp : 0 < p) (hpn : p ≤ n) {r : Nat}
    (hr : r < p) :
    pmod ((rstart n p r : Int) + ((0 : Nat) : Int) - 1) n
      = rstart n p (topNbr p r) + (rcnt n p (topNbr p r) - 1) := by
  have h2 : 1 ≤ rcnt n p (topNbr p r) := rcnt_pos hp hpn _
  rw [show (rstart n p r : Int) + ((0 : Nat) : Int) - 1
      = (rstart n p r : Int) - 1 by push_cast; ring]
  rw [← top_adjacent hp hpn hr]
  omega

/-- The wrapped index just below a strip is the bottom neighbour's first
row. -/
lemma pmod_halo_bot {n p : Nat} (hp : 0 < p) (hpn : p ≤ n) {r : Nat}
    (hr : r < p) :
    pmod ((rstart n p r : Int) + ((rcnt n p r + 1 : Nat) : Int) - 1) n
      = rstart n p (botNbr p r) + (1 - 1) := by
  rw [show (rstart n p r : Int) + ((rcnt n p r + 1 : Nat) : Int) - 1
      = ((rstart n p r + rcnt n p r : Nat) : Int) by push_cast; ring]
  rw [← bot_adjacent hp hpn hr]
  omega

/-- The interior cells of every 2-D patch agree with the rectangles of a
global grid `Gk`. -/
def InteriorMatch2d (ny nx Py Px : Nat) (Gk : Nat → Nat → Nat)
    (ps : Nat → Nat → Nat → Nat → Nat) : Prop :=
  ∀ py, py < Py → ∀ px, px < Px →
    ∀ i, 1 ≤ i → i ≤ rcnt ny Py py → ∀ j, 1 ≤ j → j ≤ rcnt nx Px px →
      ps py px i j
        = Gk (rstart ny Py py + (i - 1)) (rstart nx Px px + (j - 1))

/-- Every padded cell of every 2-D patch (halo and corners included) agrees
with the toroidally-wrapped window of a global grid `Gk`. -/
def WindowInv2d (ny nx Py Px : Nat) (Gk : Nat → Nat → Nat)
    (ps : Nat → Nat → Nat → Nat → Nat) : Prop :=
  ∀ py, py < Py → ∀ px, px < Px →
    ∀ i, i ≤ rcnt ny Py py + 1 → ∀ j, j ≤ rcnt nx Px px + 1 →
      ps py px i j
        = Gk (pmod ((rstart ny Py py : Int) + (i : Int) - 1) ny)
            (pmod ((rstart nx Px px : Int) + (j : Int) - 1) nx)

/-- After `exchange_halo_2d`, patches whose interiors are rectangles of
`Gk` become full wrapped windows of `Gk`: the 2-D halo-consistency
invariant, corners included. -/
lemma exchange_establishes_2d {ny nx Py Px : Nat} (hpy : 0 < Py)
    (hpx : 0 < Px) (hyn : Py ≤ ny) (hxn : Px ≤ nx) {Gk : Nat → Nat → Nat}
    {ps : Nat → Nat → Nat → Nat → Nat}
    (h : InteriorMatch2d ny nx Py Px Gk ps) :
    WindowInv2d ny nx Py Px Gk (exchangeHalo2d ny nx Py Px ps) := by
  intro py hpy' px hpx' i hi j hj
  have hty : topNbr Py py < Py := topNbr_lt hpy
  have htx : topNbr Px px < Px := topNbr_lt hpx
  have hby : botNbr Py py < Py := botNbr_lt hpy
  have hbx : botNbr Px px < Px := botNbr_lt hpx
  have hcy : 1 ≤ rcnt ny Py (topNbr Py py) := rcnt_pos hpy hyn _
  have hcx : 1 ≤ rcnt nx Px (topNbr Px px) := rcnt_pos hpx hxn _
  have hcy2 : 1 ≤ rcnt ny Py (botNbr Py py) := rcnt_pos hpy hyn _
  have hcx2 : 1 ≤ rcnt nx Px (botNbr Px px) := rcnt_pos hpx hxn _
  unfold exchangeHalo2d
  split_ifs with c1 c2 c3 c4 c5 c6 c7 c8
  · obtain ⟨e1, e2⟩ := c1
    subst e1; subst e2
    rw [h _ hty _ htx _ hcy (Nat.le_refl _) _ hcx (Nat.le_refl _)]
    rw [pmod_halo_top hpy hyn hpy', pmod_halo_top hpx hxn hpx']
  · obtain ⟨e1, e2⟩ := c2
    subst e1; subst e2
    rw [h _ hty _ hbx _ hcy (Nat.le_refl _) 1 (Nat.le_refl _) hcx2]
    rw [pmod_halo_top hpy hyn hpy', pmod_halo_bot hpx hxn hpx']
  · obtain ⟨e1, e2⟩ := c3
    subst e1; subst e2
    rw [h _ hby _ htx 1 (Nat.le_refl _) hcy2 _ hcx (Nat.le_refl _)]
    rw [pmod_halo_bot hpy hyn hpy', pmod_halo_top hpx hxn hpx']
  · obtain ⟨e1, e2⟩ := c4
    subst e1; subst e2
    rw [h _ hby _ hbx 1 (Nat.le_refl _) hcy2 1 (Nat.le_refl _) hcx2]
    rw [pmod_halo_bot hpy hyn hpy', pmod_halo_bot hpx hxn hpx']
  · subst c5
    have hj0 : j ≠ 0 := fun hh => c1 ⟨rfl, hh⟩
    have hjc : j ≠ rcnt nx Px px + 1 := fun hh => c2 ⟨rfl, hh⟩
    have hj1 : 1 ≤ j := by omega
    have hj2 : j ≤ rcnt nx Px px := by omega
    rw [h _ hty _ hpx' _ hcy (Nat.le_refl _) _ hj1 hj2]
    rw [pmod_halo_top hpy hyn hpy', pmod_interior hpx hpx' hj1 hj2]
  · subst c6
    have hj0 : j ≠ 0 := fun hh => c3 ⟨rfl, hh⟩
    have hjc : j ≠ rcnt nx Px px + 1 := fun hh => c4 ⟨rfl, hh⟩
    have hj1 : 1 ≤ j := by omega
    have hj2 : j ≤ rcnt nx Px px := by omega
    rw [h _ hby _ hpx' 1 (Nat.le_refl _) hcy2 _ hj1 hj2]
    rw [pmod_halo_bot hpy hyn hpy', pmod_interior hpx hpx' hj1 hj2]
  · subst c7
    have hi0 : i ≠ 0 := c5
    have hic : i ≠ rcnt ny Py py + 1 := c6
    have hi1 : 1 ≤ i := by omega
    have hi2 : i ≤ rcnt ny Py py := by omega
    rw [h _ hpy' _ htx _ hi1 hi2 _ hcx (Nat.le_refl _)]
    rw [pmod_interior hpy hpy' hi1 hi2, pmod_halo_top hpx hxn hpx']
  · subst c8
    have hi0 : i ≠ 0 := c5
    have hic : i ≠ rcnt ny Py py + 1 := c6
    have hi1 : 1 ≤ i := by omega
    have hi2 : i ≤ rcnt ny Py py := by omega
    rw [h _ hpy' _ hbx _ hi1 hi2 1 (Nat.le_refl _) hcx2]
    rw [pmod_interior hpy hpy' hi1 hi2, pmod_halo_bot hpx hxn hpx']
  · have hi0 : i ≠ 0 := c5
    have hic : i ≠ rcnt ny Py py + 1 := c6
    have hj0 : j ≠ 0 := c7
    have hjc : j ≠ rcnt nx Px px + 1 := c8
    have hi1 : 1 ≤ i := by omega
    have hi2 : i ≤ rcnt ny Py py := by omega
    have hj1 : 1 ≤ j := by omega
    have hj2 : j ≤ rcnt nx Px px := by omega
    rw [h _ hpy' _ hpx' _ hi1 hi2 _ hj1 hj2]
    rw [pmod_interior hpy hpy' hi1 hi2, pmod_interior hpx hpx' hj1 hj2]

/-- Under the 2-D window invariant, the 2-D kernel evaluated at interior
cell `(i, j)` computes one global rule application at the cell's global
coordinates. -/
lemma kernel_computes_2d {ny nx Py Px : Nat} (hpy : 0 < Py) (hpx : 0 < Px)
    (hyn : Py ≤ ny) (hxn : Px ≤ nx) {Gk : Nat → Nat → Nat}
    {ps : Nat → Nat → Nat → Nat → Nat}
    (h : WindowInv2d ny nx Py Px Gk ps) {py px : Nat} (hpy' : py < Py)
    (hpx' : px < Px) {i j : Nat} (hi1 : 1 ≤ i) (hi2 : i ≤ rcnt ny Py py)
    (hj1 : 1 ≤ j) (hj2 : j ≤ rcnt nx Px px) :
    compute_next_generation_2d (ps py px) (i - 1) (j - 1)
      = globalStep ny nx Gk (rstart ny Py py + (i - 1))
          (rstart nx Px px + (j - 1)) := by
  have hylt : rstart ny Py py + (i - 1) < ny := by
    have h5 : rstart ny Py py + rcnt ny Py py ≤ ny := by
      rw [← rstart_succ]; exact rstart_succ_le hpy hpy'
    omega
  have hxlt : rstart nx Px px + (j - 1) < nx := by
    have h5 : rstart nx Px px + rcnt nx Px px ≤ nx := by
      rw [← rstart_succ]; exact rstart_succ_le hpx hpx'
    omega
  unfold compute_next_generation_2d globalStep
  have hc : ps py px (i - 1 + 1) (j - 1 + 1)
      = Gk (rstart ny Py py + (i - 1)) (rstart nx Px px + (j - 1)) := by
    rw [show i - 1 + 1 = i by omega, show j - 1 + 1 = j by omega]
    rw [h _ hpy' _ hpx' i (by omega) j (by omega)]
    rw [pmod_interior hpy hpy' hi1 hi2, pmod_interior hpx hpx' hj1 hj2]
  rw [hc]
  congr 1
  unfold neighborCount2d neighborCountGlobal
  congr 1
  apply List.map_congr_left
  intro d hd
  rw [show i - 1 + 1 = i by omega, show j - 1 + 1 = j by omega]
  have hd1 : -1 ≤ d.1 ∧ d.1 ≤ 1 ∧ -1 ≤ d.2 ∧ d.2 ≤ 1 := by
    fin_cases hd <;> simp
  have hle1 : ((i : Int) + d.1).toNat ≤ rcnt ny Py py + 1 := by omega
  have hle2 : ((j : Int) + d.2).toNat ≤ rcnt nx Px px + 1 := by omega
  rw [h _ hpy' _ hpx' _ hle1 _ hle2]
  congr 2
  · omega
  · omega

/-- One distributed 2-D step starting from a window-invariant state leaves
the interiors holding the rectangles of the globally stepped grid. -/
lemma step_interior_match_2d {ny nx Py Px : Nat} (hpy : 0 < Py)
    (hpx : 0 < Px) (hyn : Py ≤ ny) (hxn : Px ≤ nx) {Gk : Nat → Nat → Nat}
    {ps : Nat → Nat → Nat → Nat → Nat}
    (h : WindowInv2d ny nx Py Px Gk ps) :
    InteriorMatch2d ny nx Py Px (globalStep ny nx Gk)
      (stepPatches2d ny nx Py Px ps) := by
  intro py hpy' px hpx' i h1 h2 j h3 h4
  unfold stepPatches2d
  rw [if_pos ⟨h1, h2, h3, h4⟩]
  exact kernel_computes_2d hpy hpx hyn hxn h hpy' hpx' h1 h2 h3 h4

/-- The 2-D scatter places the rectangles of the initial grid into the
interiors. -/
lemma scatter_interior_match_2d (ny nx Py Px : Nat) (G : Nat → Nat → Nat) :
    InteriorMatch2d ny nx Py Px G (scatterPatches2d ny nx Py Px G) := by
  intro py hpy' px hpx' i h1 h2 j h3 h4
  unfold scatterPatches2d
  rw [if_pos ⟨h1, h2, h3, h4⟩]

/-- Main 2-D simulation invariant: after `k` distributed generations every
padded patch is the wrapped window of `k` global rule applications. -/
lemma simulate2d_inv {ny nx Py Px : Nat} (hpy : 0 < Py) (hpx : 0 < Px)
    (hyn : Py ≤ ny) (hxn : Px ≤ nx) (G : Nat → Nat → Nat) :
    ∀ k, WindowInv2d ny nx Py Px (globalIter ny nx G k)
      (simulate2d ny nx Py Px G k) := by
  intro k
  induction k with
  | zero =>
    exact exchange_establishes_2d hpy hpx hyn hxn
      (scatter_interior_match_2d ny nx Py Px G)
  | succ k ih =>
    exact exchange_establishes_2d hpy hpx hyn hxn
      (step_interior_match_2d hpy hpx hyn hxn ih)

/-! ### Claim theorems -/

/-- C1: for every valid configuration (process count, 1-D or 2-D layout,
grid extents, step count, and any initial grid, which subsumes every
pattern and seed), the global grid gathered after `k` distributed steps
equals `k` sequential applications of the global B3/S23 rule with toroidal
wrap to the same initial grid, bitwise. -/
theorem claim1_equivalence_under_decomposition :
    (∀ (ny nx size : Nat) (G : Nat → Nat → Nat) (k : Nat),
      0 < size → size ≤ ny → 0 < nx → ∀ y, y < ny → ∀ x, x < nx →
        gatherGrid ny size (simulate ny nx size G k) y x
          = globalIter ny nx G k y x) ∧
    (∀ (ny nx Py Px : Nat) (G : Nat → Nat → Nat) (k : Nat),
      0 < Py → 0 < Px → Py ≤ ny → Px ≤ nx → ∀ y, y < ny → ∀ x, x < nx →
        gatherGrid2d ny nx Py Px (simulate2d ny nx Py Px G k) y x
          = globalIter ny nx G k y x) := by
  constructor
  · intro ny nx size G k hp hpn hnx y hy x hx
    obtain ⟨h1, h2, h3⟩ := owner_spec hp hy
    unfold gatherGrid
    rw [simulate_inv hp hpn hnx G k _ h1 _ (by omega) _ hx]
    congr 1
    rw [show (rstart ny size (owner ny size y) : Int)
        + ((y - rstart ny size (owner ny size y) + 1 : Nat) : Int) - 1
        = ((y : Nat) : Int) by omega]
    exact pmod_of_lt hy
  · intro ny nx Py Px G k hpy hpx hyn hxn y hy x hx
    obtain ⟨h1, h2, h3⟩ := owner_spec hpy hy
    obtain ⟨g1, g2, g3⟩ := owner_spec hpx hx
    unfold gatherGrid2d
    rw [simulate2d_inv hpy hpx hyn hxn G k _ h1 _ g1 _ (by omega) _ (by omega)]
    congr 1
    · rw [show (rstart ny Py (owner ny Py y) : Int)
          + ((y - rstart ny Py (owner ny Py y) + 1 : Nat) : Int) - 1
          = ((y : Nat) : Int) by omega]
      exact pmod_of_lt hy
    · rw [show (rstart nx Px (owner nx Px x) : Int)
          + ((x - rstart nx Px (owner nx Px x) + 1 : Nat) : Int) - 1
          = ((x : Nat) : Int) by omega]
      exact pmod_of_lt hx

/-- Witness for C1 at a concrete configuration: a blinker on a 4×4 torus,
2 ranks (1-D) and a 2×2 Cartesian layout (2-D), 2 steps. -/
theorem claim1_witness :
    gatherGrid 4 2 (simulate 4 4 2 blinkerGrid 2) 1 2
        = globalIter 4 4 blinkerGrid 2 1 2 ∧
      gatherGrid2d 4 4 2 2 (simulate2d 4 4 2 2 blinkerGrid 2) 1 2
        = globalIter 4 4 blinkerGrid 2 1 2 :=
  ⟨claim1_equivalence_under_decomposition.1 4 4 2 blinkerGrid 2
      (by decide) (by decide) (by decide) 1 (by decide) 2 (by decide),
    claim1_equivalence_under_decomposition.2 4 4 2 2 blinkerGrid 2
      (by decide) (by decide) (by decide) (by decide) 1 (by decide) 2 (by decide)⟩

/-- C2: for every current value `v < 2` and neighbour sum `n < 9`,
`update_cell` returns 1 exactly when `v = 1` and `n` is 2 or 3, or `v = 0`
and `n = 3`; in every other case it returns 0. -/
theorem claim2_update_cell_rule :
    ∀ v, v < 2 → ∀ n, n < 9 →
      (update_cell v n = 1 ↔ (v = 1 ∧ (n = 2 ∨ n = 3)) ∨ (v = 0 ∧ n = 3)) ∧
        (¬((v = 1 ∧ (n = 2 ∨ n = 3)) ∨ (v = 0 ∧ n = 3)) →
          update_cell v n = 0) := by
  intro v hv n hn
  interval_cases v <;> interval_cases n <;> decide

/-- Witness for C2 at `v = 1`, `n = 3` (a live cell with three live
neighbours survives). -/
theorem claim2_witness :
    (update_cell 1 3 = 1 ↔ (1 = 1 ∧ (3 = 2 ∨ 3 = 3)) ∨ (1 = 0 ∧ 3 = 3)) ∧
      (¬((1 = 1 ∧ (3 = 2 ∨ 3 = 3)) ∨ (1 = 0 ∧ 3 = 3)) →
        update_cell 1 3 = 0) :=
  claim2_update_cell_rule 1 (by decide) 3 (by decide)

/-- C6: scattering a global grid to per-rank patches and immediately
gathering them back, with no step applied, returns the same grid — for the
1-D strips and for the 2-D rectangles. -/
theorem claim6_scatter_gather_roundtrip :
    (∀ (ny nx size : Nat) (G : Nat → Nat → Nat),
      0 < size → ∀ y, y < ny → ∀ x, x < nx →
        gatherGrid ny size (scatterPatches ny nx size G) y x = G y x) ∧
    (∀ (ny nx Py Px : Nat) (G : Nat → Nat → Nat),
      0 < Py → 0 < Px → ∀ y, y < ny → ∀ x, x < nx →
        gatherGrid2d ny nx Py Px (scatterPatches2d ny nx Py Px G) y x
          = G y x) := by
  constructor
  · intro ny nx size G hp y hy x hx
    obtain ⟨h1, h2, h3⟩ := owner_spec hp hy
    unfold gatherGrid scatterPatches
    rw [if_pos ⟨by omega, by omega, hx⟩]
    congr 1
    omega
  · intro ny nx Py Px G hpy hpx y hy x hx
    obtain ⟨h1, h2, h3⟩ := owner_spec hpy hy
    obtain ⟨g1, g2, g3⟩ := owner_spec hpx hx
    unfold gatherGrid2d scatterPatches2d
    rw [if_pos ⟨by omega, by omega, by omega, by omega⟩]
    congr 1 <;> omega

/-- Witness for C6: round-trip of a concrete 5×3 grid over 2 ranks (1-D)
and a 2×3 Cartesian layout (2-D). -/
theorem claim6_witness :
    gatherGrid 5 2 (scatterPatches 5 3 2 blinkerGrid) 3 1
        = blinkerGrid 3 1 ∧
      gatherGrid2d 5 3 2 3 (scatterPatches2d 5 3 2 3 blinkerGrid) 3 1
        = blinkerGrid 3 1 :=
  ⟨claim6_scatter_gather_roundtrip.1 5 3 2 blinkerGrid (by decide)
      3 (by decide) 1 (by decide),
    claim6_scatter_gather_roundtrip.2 5 3 2 3 blinkerGrid (by decide)
      (by decide) 3 (by decide) 1 (by decide)⟩

/-- C10: the cell-update function only ever returns 0 or 1, so for any
patch whose cells are in `{0, 1}` every cell written by either stencil
kernel is again in `{0, 1}`. -/
theorem claim10_kernel_preserves_01 :
    (∀ v n, update_cell v n = 0 ∨ update_cell v n = 1) ∧
    (∀ lg : Nat → Nat → Nat, (∀ i j, lg i j = 0 ∨ lg i j = 1) →
      ∀ nx i j, compute_next_generation lg nx i j = 0 ∨
        compute_next_generation lg nx i j = 1) ∧
    (∀ lg : Nat → Nat → Nat, (∀ i j, lg i j = 0 ∨ lg i j = 1) →
      ∀ i j, compute_next_generation_2d lg i j = 0 ∨
        compute_next_generation_2d lg i j = 1) := by
  have h : ∀ v n, update_cell v n = 0 ∨ update_cell v n = 1 := by
    intro v n
    unfold update_cell
    split_ifs <;> simp
  refine ⟨h, fun lg _ nx i j => ?_, fun lg _ i j => ?_⟩
  · exact h (lg (i + 1) j) (neighborCount1d lg nx (i + 1) j)
  · exact h (lg (i + 1) (j + 1)) (neighborCount2d lg (i + 1) (j + 1))

/-- Witness for C10 on the all-zero patch. -/
theorem claim10_witness :
    compute_next_generation (fun _ _ => 0) 3 0 0 = 0 ∨
      compute_next_generation (fun _ _ => 0) 3 0 0 = 1 :=
  claim10_kernel_preserves_01.2.1 (fun _ _ => 0) (fun _ _ => Or.inl rfl) 3 0 0

/-- Uniqueness of the owning strip: two ranks cannot both own a row. -/
lemma owner_unique {n p : Nat} {y r1 r2 : Nat}
    (h1 : rstart n p r1 ≤ y ∧ y < rstart n p r1 + rcnt n p r1)
    (h2 : rstart n p r2 ≤ y ∧ y < rstart n p r2 + rcnt n p r2) :
    r1 = r2 := by
  by_contra hne
  rcases Nat.lt_or_ge r1 r2 with h | h
  · have hm := rstart_mono n p (show r1 + 1 ≤ r2 by omega)
    rw [rstart_succ] at hm
    omega
  · have h' : r2 < r1 := by omega
    have hm := rstart_mono n p (show r2 + 1 ≤ r1 by omega)
    rw [rstart_succ] at hm
    omega

set_option maxHeartbeats 1600000 in
/-- C3: immediately after the halo exchange, every halo cell equals the
corresponding owned interior cell of the neighbour given by the periodic
topology.  Stated through the window invariant: whenever all interiors hold
strips (rectangles) of a global grid, the exchanged patches hold the full
toroidally-wrapped windows, halo rows, columns and corners included.  When
`P = 1` every neighbour is the rank itself and the exchange degenerates to
self-copies of the rank's own edge rows, columns and corner cells. -/
theorem claim3_halo_consistency :
    (∀ (ny nx size : Nat) (Gk : Nat → Nat → Nat)
        (ps : Nat → Nat → Nat → Nat),
      0 < size → size ≤ ny → InteriorMatch ny nx size Gk ps →
        WindowInv ny nx size Gk (exchangeHalo ny size ps)) ∧
    (∀ (ny nx Py Px : Nat) (Gk : Nat → Nat → Nat)
        (ps : Nat → Nat → Nat → Nat → Nat),
      0 < Py → 0 < Px → Py ≤ ny → Px ≤ nx →
        InteriorMatch2d ny nx Py Px Gk ps →
          WindowInv2d ny nx Py Px Gk (exchangeHalo2d ny nx Py Px ps)) ∧
    (∀ (ny : Nat) (ps : Nat → Nat → Nat → Nat) (j : Nat),
      exchangeHalo ny 1 ps 0 0 j = ps 0 (rcnt ny 1 0) j ∧
        exchangeHalo ny 1 ps 0 (rcnt ny 1 0 + 1) j = ps 0 1 j) ∧
    (∀ (ny nx : Nat) (ps : Nat → Nat → Nat → Nat → Nat),
      (∀ j, 1 ≤ j → j ≤ rcnt nx 1 0 →
        exchangeHalo2d ny nx 1 1 ps 0 0 0 j = ps 0 0 (rcnt ny 1 0) j ∧
          exchangeHalo2d ny nx 1 1 ps 0 0 (rcnt ny 1 0 + 1) j = ps 0 0 1 j) ∧
      (∀ i, 1 ≤ i → i ≤ rcnt ny 1 0 →
        exchangeHalo2d ny nx 1 1 ps 0 0 i 0 = ps 0 0 i (rcnt nx 1 0) ∧
          exchangeHalo2d ny nx 1 1 ps 0 0 i (rcnt nx 1 0 + 1) = ps 0 0 i 1) ∧
      exchangeHalo2d ny nx 1 1 ps 0 0 0 0
          = ps 0 0 (rcnt ny 1 0) (rcnt nx 1 0) ∧
        exchangeHalo2d ny nx 1 1 ps 0 0 0 (rcnt nx 1 0 + 1)
          = ps 0 0 (rcnt ny 1 0) 1 ∧
        exchangeHalo2d ny nx 1 1 ps 0 0 (rcnt ny 1 0 + 1) 0
          = ps 0 0 1 (rcnt nx 1 0) ∧
        exchangeHalo2d ny nx 1 1 ps 0 0 (rcnt ny 1 0 + 1) (rcnt nx 1 0 + 1)
          = ps 0 0 1 1) := by
  have ht1 : topNbr 1 0 = 0 := by decide
  have hb1 : botNbr 1 0 = 0 := by decide
  refine ⟨?_, ?_, ?_, ?_⟩
  · intro ny nx size Gk ps hp hpn h
    exact exchange_establishes hp hpn h
  · intro ny nx Py Px Gk ps hpy hpx hyn hxn h
    exact exchange_establishes_2d hpy hpx hyn hxn h
  · intro ny ps j
    constructor
    · unfold exchangeHalo
      rw [if_pos rfl, ht1]
    · unfold exchangeHalo
      rw [if_neg (by omega), if_pos rfl, hb1]
  · intro ny nx ps
    refine ⟨fun j h1 h2 => ⟨?_, ?_⟩, fun i h1 h2 => ⟨?_, ?_⟩, ?_, ?_, ?_, ?_⟩
    · unfold exchangeHalo2d
      rw [if_neg (by omega), if_neg (by omega), if_neg (by omega),
        if_neg (by omega), if_pos rfl, ht1]
    · unfold exchangeHalo2d
      rw [if_neg (by omega), if_neg (by omega), if_neg (by omega),
        if_neg (by omega), if_neg (by omega), if_pos rfl, hb1]
    · unfold exchangeHalo2d
      rw [if_neg (by omega), if_neg (by omega), if_neg (by omega),
        if_neg (by omega), if_neg (by omega), if_neg (by omega),
        if_pos rfl, ht1]
    · unfold exchangeHalo2d
      rw [if_neg (by omega), if_neg (by omega), if_neg (by omega),
        if_neg (by omega), if_neg (by omega), if_neg (by omega),
        if_neg (by omega), if_pos rfl, hb1]
    · unfold exchangeHalo2d
      rw [if_pos ⟨rfl, rfl⟩, ht1]
    · unfold exchangeHalo2d
      rw [if_neg (by omega), if_pos ⟨rfl, rfl⟩, ht1, hb1]
    · unfold exchangeHalo2d
      rw [if_neg (by omega), if_neg (by omega), if_pos ⟨rfl, rfl⟩, ht1, hb1]
    · unfold exchangeHalo2d
      rw [if_neg (by omega), if_neg (by omega), if_neg (by omega),
        if_pos ⟨rfl, rfl⟩, hb1]

/-- Witness for C3: the window invariant after the exchange on a concrete
2-rank scatter of the block grid, plus the 1-D self-copy at `P = 1`. -/
theorem claim3_witness :
    WindowInv 2 2 2 blockGrid
        (exchangeHalo 2 2 (scatterPatches 2 2 2 blockGrid)) ∧
      exchangeHalo 3 1 (scatterPatches 3 2 1 blockGrid) 0 0 1
        = scatterPatches 3 2 1 blockGrid 0 (rcnt 3 1 0) 1 :=
  ⟨claim3_halo_consistency.1 2 2 2 blockGrid _ (by decide) (by decide)
      (scatter_interior_match 2 2 2 blockGrid),
    (claim3_halo_consistency.2.2.1 3 (scatterPatches 3 2 1 blockGrid) 1).1⟩

/-- C4: the planner follows the remainder rule — writing `n = q·p + s` with
`s < p`, the first `s` strips receive `q + 1` rows and the rest `q` — the
strips partition `[0, n)` with no duplicate and no gap, the strip offsets
are monotonic, and any two strip sizes differ by at most 1.  The same
functions are applied to rows (`n = ny`, `p = Py`) and columns (`n = nx`,
`p = Px`) in both layouts. -/
theorem claim4_remainder_partition :
    ∀ n p : Nat, 0 < p →
      (∀ q s, n = q * p + s → s < p → ∀ r, r < p →
        (r < s → rcnt n p r = q + 1) ∧ (s ≤ r → rcnt n p r = q)) ∧
      (∀ y, y < n →
        ∃! r, r < p ∧ rstart n p r ≤ y ∧ y < rstart n p r + rcnt n p r) ∧
      (∀ r, rstart n p r ≤ rstart n p (r + 1)) ∧
      (∀ r t, r < p → t < p → rcnt n p r ≤ rcnt n p t + 1) := by
  intro n p hp
  refine ⟨?_, ?_, ?_, ?_⟩
  · intro q s hqs hs r hr
    have hdiv : n / p = q := by
      rw [hqs, Nat.add_comm, Nat.add_mul_div_right _ _ hp,
        Nat.div_eq_of_lt hs, Nat.zero_add]
    have hmod : n % p = s := by
      rw [hqs, Nat.add_comm, Nat.add_mul_mod_self_right,
        Nat.mod_eq_of_lt hs]
    unfold rcnt
    rw [hdiv, hmod]
    constructor
    · intro h; rw [if_pos h]
    · intro h; rw [if_neg (by omega)]
  · intro y hy
    obtain ⟨h1, h2, h3⟩ := owner_spec hp hy
    exact ⟨owner n p y, ⟨h1, h2, h3⟩,
      fun r hr => owner_unique ⟨hr.2.1, hr.2.2⟩ ⟨h2, h3⟩⟩
  · intro r
    rw [rstart_succ]
    exact Nat.le_add_right _ _
  · intro r t hr ht
    unfold rcnt
    split_ifs <;> omega

/-- Witness for C4 with `n = 5`, `p = 2` (so `q = 2`, `s = 1`): the first
strip gets 3 rows, the second 2, offsets are monotonic, and the imbalance
is at most 1. -/
theorem claim4_witness :
    rcnt 5 2 0 = 2 + 1 ∧ rcnt 5 2 1 = 2 ∧
      rstart 5 2 0 ≤ rstart 5 2 1 ∧ rcnt 5 2 0 ≤ rcnt 5 2 1 + 1 := by
  obtain ⟨h1, h2, h3, h4⟩ := claim4_remainder_partition 5 2 (by decide)
  exact ⟨(h1 2 1 (by decide) (by decide) 0 (by decide)).1 (by decide),
    (h1 2 1 (by decide) (by decide) 1 (by decide)).2 (by decide),
    h3 0, h4 0 1 (by decide) (by decide)⟩

/-- A padded 1-D patch (width 3) whose only live cells sit in column 2. -/
def colTwoPatch (i j : Nat) : Nat := if j = 2 then 1 else 0

/-- The all-dead padded patch. -/
def zeroPatch (i j : Nat) : Nat := 0

/-- A padded patch that is live only from row 4 downwards (outside the 3×3
neighbourhood of output cell `(0, 0)`). -/
def belowPatch (i j : Nat) : Nat := if 4 ≤ i then 7 else 0

/-- Counterexample to C5: the two width-3 padded patches `colTwoPatch` and
`zeroPatch` agree on every cell of the claimed read set of output cell
`(0, 0)` of the 1-D kernel — rows 0..2 of columns 0 and 1, i.e. the cell
`(1, 0)` and its eight adjacent padded cells that exist without wrapping —
yet the kernel outputs differ, because `compute_next_generation` wraps the
column index `(j + dj) % nx` and reads column 2. -/
theorem claim5_counterexample :
    colTwoPatch 0 0 = zeroPatch 0 0 ∧ colTwoPatch 0 1 = zeroPatch 0 1 ∧
      colTwoPatch 1 0 = zeroPatch 1 0 ∧ colTwoPatch 1 1 = zeroPatch 1 1 ∧
      colTwoPatch 2 0 = zeroPatch 2 0 ∧ colTwoPatch 2 1 = zeroPatch 2 1 ∧
      compute_next_generation colTwoPatch 3 0 0 = 1 ∧
      compute_next_generation zeroPatch 3 0 0 = 0 := by
  decide

/-- C5 as amended: the 2-D kernel reads only the cell `(i+1, j+1)` and its
eight adjacent padded-patch cells, with no wrap-around of its own; the 1-D
kernel reads only rows `i .. i+2` of the padded patch (relying on halo rows
for the vertical boundary) but wraps column indices itself modulo `nx`. -/
theorem claim5_kernel_read_set :
    (∀ (lg1 lg2 : Nat → Nat → Nat) (i j : Nat),
      (∀ a, a ≤ 2 → ∀ b, b ≤ 2 → lg1 (i + a) (j + b) = lg2 (i + a) (j + b)) →
        compute_next_generation_2d lg1 i j
          = compute_next_generation_2d lg2 i j) ∧
    (∀ (nx : Nat) (lg1 lg2 : Nat → Nat → Nat) (i j : Nat), 0 < nx → j < nx →
      (∀ a, a ≤ 2 → ∀ c, c < nx → lg1 (i + a) c = lg2 (i + a) c) →
        compute_next_generation lg1 nx i j
          = compute_next_generation lg2 nx i j) := by
  constructor
  · intro lg1 lg2 i j h
    unfold compute_next_generation_2d
    rw [h 1 (by omega) 1 (by omega)]
    congr 1
    unfold neighborCount2d
    congr 1
    apply List.map_congr_left
    intro d hd
    fin_cases hd
    · convert h 0 (by omega) 0 (by omega) using 2 <;> omega
    · convert h 0 (by omega) 1 (by omega) using 2 <;> omega
    · convert h 0 (by omega) 2 (by omega) using 2 <;> omega
    · convert h 1 (by omega) 0 (by omega) using 2 <;> omega
    · convert h 1 (by omega) 2 (by omega) using 2 <;> omega
    · convert h 2 (by omega) 0 (by omega) using 2 <;> omega
    · convert h 2 (by omega) 1 (by omega) using 2 <;> omega
    · convert h 2 (by omega) 2 (by omega) using 2 <;> omega
  · intro nx lg1 lg2 i j hnx hj h
    unfold compute_next_generation
    have hc : lg1 (i + 1) j = lg2 (i + 1) j := h 1 (by omega) j hj
    rw [hc]
    congr 1
    unfold neighborCount1d
    congr 1
    apply List.map_congr_left
    intro d hd
    fin_cases hd
    · convert h 0 (by omega) _ (pmod_lt _ hnx) using 2 <;> omega
    · convert h 0 (by omega) _ (pmod_lt _ hnx) using 2 <;> omega
    · convert h 0 (by omega) _ (pmod_lt _ hnx) using 2 <;> omega
    · convert h 1 (by omega) _ (pmod_lt _ hnx) using 2 <;> omega
    · convert h 1 (by omega) _ (pmod_lt _ hnx) using 2 <;> omega
    · convert h 2 (by omega) _ (pmod_lt _ hnx) using 2 <;> omega
    · convert h 2 (by omega) _ (pmod_lt _ hnx) using 2 <;> omega
    · convert h 2 (by omega) _ (pmod_lt _ hnx) using 2 <;> omega

/-- Witness for the amended C5: `belowPatch` and `zeroPatch` agree on the
3×3 neighbourhood of output cell `(0, 0)`, so the 2-D kernel agrees
there. -/
theorem claim5_witness :
    compute_next_generation_2d belowPatch 0 0
      = compute_next_generation_2d zeroPatch 0 0 :=
  claim5_kernel_read_set.1 belowPatch zeroPatch 0 0
    (fun a ha b hb => by unfold belowPatch zeroPatch; rw [if_neg (by omega)])

/-- A global grid with a single live cell at the origin. -/
def singletonGrid (y x : Nat) : Nat := if y = 0 ∧ x = 0 then 1 else 0

/-- C7: the code performs no configuration validation.  At the invalid
configuration `ny = 1 < P = 2` (rank 1 owns an empty patch) the simulation
is not aborted: the distributed pipeline runs to completion and gathers a
grid that differs from the sequential reference — the empty rank's halo
exchange forwards stale halo rows instead of owned rows, so the surviving
cell at `(0, 0)` (two wrapped neighbours on the 1-row torus) is killed. -/
theorem claim7_no_config_error :
    gatherGrid 1 2 (simulate 1 3 2 singletonGrid 1) 0 0 = 0 ∧
      globalIter 1 3 singletonGrid 1 0 0 = 1 := by
  constructor
  · decide
  · decide

/-- One global step commutes with toroidal translation. -/
lemma globalStep_translate {ny nx : Nat} (hny : 0 < ny) (hnx : 0 < nx)
    (dy dx : Int) (G : Nat → Nat → Nat) (y x : Nat) :
    globalStep ny nx (translate ny nx dy dx G) y x
      = translate ny nx dy dx (globalStep ny nx G) y x := by
  show update_cell (translate ny nx dy dx G y x)
      (neighborCountGlobal ny nx (translate ny nx dy dx G) y x)
    = update_cell (G (pmod ((y : Int) - dy) ny) (pmod ((x : Int) - dx) nx))
      (neighborCountGlobal ny nx G (pmod ((y : Int) - dy) ny)
        (pmod ((x : Int) - dx) nx))
  congr 1
  unfold neighborCountGlobal
  congr 1
  apply List.map_congr_left
  intro d _
  show G (pmod (((pmod ((y : Int) + d.1) ny : Nat) : Int) - dy) ny)
      (pmod (((pmod ((x : Int) + d.2) nx : Nat) : Int) - dx) nx)
    = G (pmod (((pmod ((y : Int) - dy) ny : Nat) : Int) + d.1) ny)
      (pmod (((pmod ((x : Int) - dx) nx : Nat) : Int) + d.2) nx)
  rw [sub_eq_add_neg _ dy, sub_eq_add_neg _ dx,
    pmod_emod_add _ _ hny, pmod_emod_add _ _ hnx,
    pmod_emod_add _ _ hny, pmod_emod_add _ _ hnx]
  congr 1
  · congr 1
    ring
  · congr 1
    ring

/-- Iterated global steps commute with toroidal translation. -/
lemma globalIter_translate {ny nx : Nat} (hny : 0 < ny) (hnx : 0 < nx)
    (dy dx : Int) (G : Nat → Nat → Nat) :
    ∀ k y x, globalIter ny nx (translate ny nx dy dx G) k y x
      = translate ny nx dy dx (globalIter ny nx G k) y x := by
  intro k
  induction k with
  | zero => intro y x; rfl
  | succ k ih =>
    have hfe : globalIter ny nx (translate ny nx dy dx G) k
        = translate ny nx dy dx (globalIter ny nx G k) :=
      funext fun y => funext fun x => ih y x
    intro y x
    show globalStep ny nx (globalIter ny nx (translate ny nx dy dx G) k) y x
      = translate ny nx dy dx (globalStep ny nx (globalIter ny nx G k)) y x
    rw [hfe]
    exact globalStep_translate hny hnx dy dx _ y x

/-- C9: translating the initial grid by `(dy, dx)` (modulo the grid
extents) translates every subsequent state by the same offset: `k` global
steps applied to the translated grid equal the translation of `k` global
steps applied to the original grid, at every cell. -/
theorem claim9_toroidal_symmetry :
    ∀ ny nx : Nat, 0 < ny → 0 < nx →
      ∀ (G : Nat → Nat → Nat) (dy dx : Int) (k y x : Nat),
        globalIter ny nx (translate ny nx dy dx G) k y x
          = translate ny nx dy dx (globalIter ny nx G k) y x :=
  fun _ _ hny hnx G dy dx k y x => globalIter_translate hny hnx dy dx G k y x

/-- Witness for C9: a blinker translated by `(1, 2)` on the 4×4 torus,
one step, cell `(1, 3)`. -/
theorem claim9_witness :
    globalIter 4 4 (translate 4 4 1 2 blinkerGrid) 1 1 3
      = translate 4 4 1 2 (globalIter 4 4 blinkerGrid 1) 1 3 :=
  claim9_toroidal_symmetry 4 4 (by decide) (by decide) blinkerGrid 1 2 1 1 3

/-! ### Still lifes and oscillators on the torus -/

/-- The toroidal row (or column) above `v`. -/
def upIdx (n v : Nat) : Nat := (v + n - 1) % n

/-- The toroidal row (or column) below `v`. -/
def downIdx (n v : Nat) : Nat := (v + 1) % n

lemma pmod_up {n : Nat} (hn : 0 < n) {y : Nat} (hy : y < n) :
    pmod ((y : Int) + -1) n = upIdx n y := by
  unfold upIdx
  rcases Nat.eq_zero_or_pos y with h | h
  · subst h
    rw [show ((0 : Nat) : Int) + -1 = -1 by omega, pmod_neg_one hn,
      show 0 + n - 1 = n - 1 by omega]
    exact (Nat.mod_eq_of_lt (by omega)).symm
  · rw [show (y : Int) + -1 = ((y - 1 : Nat) : Int) by omega,
      pmod_of_lt (by omega), show y + n - 1 = y - 1 + n by omega,
      Nat.add_mod_right]
    exact (Nat.mod_eq_of_lt (by omega)).symm

lemma pmod_down {n : Nat} (hn : 0 < n) {y : Nat} (hy : y < n) :
    pmod ((y : Int) + 1) n = downIdx n y := by
  unfold downIdx
  rcases Nat.lt_or_ge (y + 1) n with h | h
  · rw [show (y : Int) + 1 = ((y + 1 : Nat) : Int) by omega, pmod_of_lt h]
    exact (Nat.mod_eq_of_lt h).symm
  · have hy1 : y + 1 = n := by omega
    rw [show (y : Int) + 1 = ((0 : Nat) : Int) + (n : Int) by omega,
      pmod_add_nat _ hn, pmod_of_lt hn, hy1, Nat.mod_self]

lemma pmod_keep {n : Nat} (hn : 0 < n) {y : Nat} (hy : y < n) :
    pmod ((y : Int) + 0) n = y := by
  rw [add_zero]
  exact pmod_of_lt hy

/-- The global neighbour sum expanded into its eight wrapped reads. -/
lemma neighborCountGlobal_eq {ny nx : Nat} (hny : 0 < ny) (hnx : 0 < nx)
    (G : Nat → Nat → Nat) {y x : Nat} (hy : y < ny) (hx : x < nx) :
    neighborCountGlobal ny nx G y x
      = G (upIdx ny y) (upIdx nx x) + G (upIdx ny y) x
        + G (upIdx ny y) (downIdx nx x) + G y (upIdx nx x)
        + G y (downIdx nx x) + G (downIdx ny y) (upIdx nx x)
        + G (downIdx ny y) x + G (downIdx ny y) (downIdx nx x) := by
  show G (pmod ((y : Int) + -1) ny) (pmod ((x : Int) + -1) nx)
      + (G (pmod ((y : Int) + -1) ny) (pmod ((x : Int) + 0) nx)
      + (G (pmod ((y : Int) + -1) ny) (pmod ((x : Int) + 1) nx)
      + (G (pmod ((y : Int) + 0) ny) (pmod ((x : Int) + -1) nx)
      + (G (pmod ((y : Int) + 0) ny) (pmod ((x : Int) + 1) nx)
      + (G (pmod ((y : Int) + 1) ny) (pmod ((x : Int) + -1) nx)
      + (G (pmod ((y : Int) + 1) ny) (pmod ((x : Int) + 0) nx)
      + (G (pmod ((y : Int) + 1) ny) (pmod ((x : Int) + 1) nx)
      + 0))))))) = _
  rw [pmod_up hny hy, pmod_down hny hy, pmod_keep hny hy,
    pmod_up hnx hx, pmod_down hnx hx, pmod_keep hnx hx]
  omega

/-- The global step on a product grid `r y * c x`: the neighbour sum
factorises into row-sum times column-sum minus the centre. -/
lemma globalStep_product {ny nx : Nat} (hny : 0 < ny) (hnx : 0 < nx)
    (r c : Nat → Nat) {y x : Nat} (hy : y < ny) (hx : x < nx) :
    globalStep ny nx (fun a b => r a * c b) y x
      = update_cell (r y * c x)
          ((r (upIdx ny y) + r y + r (downIdx ny y))
              * (c (upIdx nx x) + c x + c (downIdx nx x))
            - r y * c x) := by
  unfold globalStep
  rw [neighborCountGlobal_eq hny hnx _ hy hx]
  show update_cell (r y * c x)
      (r (upIdx ny y) * c (upIdx nx x) + r (upIdx ny y) * c x
        + r (upIdx ny y) * c (downIdx nx x) + r y * c (upIdx nx x)
        + r y * c (downIdx nx x) + r (downIdx ny y) * c (upIdx nx x)
        + r (downIdx ny y) * c x + r (downIdx ny y) * c (downIdx nx x)) = _
  congr 1
  have hle : r y * c x
      ≤ (r (upIdx ny y) + r y + r (downIdx ny y))
          * (c (upIdx nx x) + c x + c (downIdx nx x)) :=
    Nat.mul_le_mul (by omega) (by omega)
  zify [hle]
  ring

lemma upIdx_eq {n : Nat} (hn : 0 < n) {y : Nat} (hy : y < n) :
    upIdx n y = if y = 0 then n - 1 else y - 1 := by
  unfold upIdx
  split_ifs with h
  · subst h
    rw [show 0 + n - 1 = n - 1 by omega]
    exact Nat.mod_eq_of_lt (by omega)
  · rw [show y + n - 1 = y - 1 + n by omega, Nat.add_mod_right]
    exact Nat.mod_eq_of_lt (by omega)

lemma downIdx_eq {n : Nat} (hn : 0 < n) {y : Nat} (hy : y < n) :
    downIdx n y = if y = n - 1 then 0 else y + 1 := by
  unfold downIdx
  split_ifs with h
  · rw [show y + 1 = n by omega]
    exact Nat.mod_self n
  · exact Nat.mod_eq_of_lt (by omega)

/-- Row (and column) indicator of the origin 2×2 block. -/
def bInd (v : Nat) : Nat := if v < 2 then 1 else 0

/-- Row indicator of the horizontal blinker (row 0). -/
def rowOne (v : Nat) : Nat := if v = 0 then 1 else 0

/-- Column indicator of the horizontal blinker (columns 0..2). -/
def colThree (v : Nat) : Nat := if v < 3 then 1 else 0

/-- Row indicator of the vertical blinker phase (rows `n-1`, 0, 1). -/
def rowThree (n v : Nat) : Nat := if v = 0 ∨ v = 1 ∨ v = n - 1 then 1 else 0

/-- Column indicator of the vertical blinker phase (column 1). -/
def colOne (v : Nat) : Nat := if v = 1 then 1 else 0

lemma blockGrid_prod : blockGrid = fun a b => bInd a * bInd b := by
  funext a b
  unfold blockGrid bInd
  split_ifs <;> omega

lemma blinkerGrid_prod : blinkerGrid = fun a b => rowOne a * colThree b := by
  funext a b
  unfold blinkerGrid rowOne colThree
  split_ifs <;> omega

lemma vblinkerGrid_prod (n : Nat) :
    vblinkerGrid n = fun a b => rowThree n a * colOne b := by
  funext a b
  unfold vblinkerGrid rowThree colOne
  split_ifs <;> omega

lemma bInd_row {n : Nat} (h3 : 3 ≤ n) {y : Nat} (hy : y < n) :
    bInd (upIdx n y) + bInd y + bInd (downIdx n y) ≤ 2 ∧
      (bInd y = 1 → bInd (upIdx n y) + bInd y + bInd (downIdx n y) = 2) := by
  rw [upIdx_eq (by omega) hy, downIdx_eq (by omega) hy]
  by_cases h0 : y = 0 <;> by_cases hl : y = n - 1
  · exfalso; omega
  · rw [if_pos h0, if_neg hl]; unfold bInd; split_ifs <;> (try simp_all) <;> omega
  · rw [if_neg h0, if_pos hl]; unfold bInd; split_ifs <;> (try simp_all) <;> omega
  · rw [if_neg h0, if_neg hl]; unfold bInd; split_ifs <;> (try simp_all) <;> omega

/-- The 2×2 block with corner at the origin is a still life on every torus
with at least three rows and three columns. -/
lemma block_still {ny nx : Nat} (h3y : 3 ≤ ny) (h3x : 3 ≤ nx) {y x : Nat}
    (hy : y < ny) (hx : x < nx) :
    globalStep ny nx blockGrid y x = blockGrid y x := by
  have hgoal : globalStep ny nx (fun a b => bInd a * bInd b) y x
      = bInd y * bInd x := by
    rw [globalStep_product (by omega) (by omega) bInd bInd hy hx]
    obtain ⟨hA1, hA2⟩ := bInd_row h3y hy
    obtain ⟨hB1, hB2⟩ := bInd_row h3x hx
    have h01y : bInd y = 0 ∨ bInd y = 1 := by unfold bInd; split_ifs <;> simp
    have h01x : bInd x = 0 ∨ bInd x = 1 := by unfold bInd; split_ifs <;> simp
    set A := bInd (upIdx ny y) + bInd y + bInd (downIdx ny y) with hA
    set B := bInd (upIdx nx x) + bInd x + bInd (downIdx nx x) with hB
    rcases h01y with h1 | h1 <;> rcases h01x with h2 | h2
    · rw [h1, h2]
      clear_value A B
      interval_cases A <;> interval_cases B <;> decide
    · rw [h1, h2]
      clear_value A B
      interval_cases A <;> interval_cases B <;> decide
    · rw [h1, h2]
      clear_value A B
      interval_cases A <;> interval_cases B <;> decide
    · rw [h1, h2, hA2 h1, hB2 h2]
      decide
  calc globalStep ny nx blockGrid y x
      = globalStep ny nx (fun a b => bInd a * bInd b) y x := by
        rw [blockGrid_prod]
    _ = bInd y * bInd x := hgoal
    _ = blockGrid y x := by unfold blockGrid bInd; split_ifs <;> omega

lemma rowOne_row {n : Nat} (h4 : 4 ≤ n) {y : Nat} (hy : y < n) :
    rowOne (upIdx n y) + rowOne y + rowOne (downIdx n y) = rowThree n y := by
  rw [upIdx_eq (by omega) hy, downIdx_eq (by omega) hy]
  by_cases h0 : y = 0 <;> by_cases hl : y = n - 1
  · exfalso; omega
  · rw [if_pos h0, if_neg hl]; unfold rowOne rowThree; split_ifs <;> (try simp_all) <;> omega
  · rw [if_neg h0, if_pos hl]; unfold rowOne rowThree; split_ifs <;> (try simp_all) <;> omega
  · rw [if_neg h0, if_neg hl]; unfold rowOne rowThree; split_ifs <;> (try simp_all) <;> omega

lemma colThree_col {n : Nat} (h4 : 4 ≤ n) {x : Nat} (hx : x < n) :
    (x = 1 → colThree (upIdx n x) + colThree x + colThree (downIdx n x) = 3) ∧
      (x ≠ 1 →
        colThree (upIdx n x) + colThree x + colThree (downIdx n x) ≤ 2) := by
  rw [upIdx_eq (by omega) hx, downIdx_eq (by omega) hx]
  by_cases h0 : x = 0 <;> by_cases hl : x = n - 1
  · exfalso; omega
  · rw [if_pos h0, if_neg hl]; unfold colThree; split_ifs <;> (try simp_all) <;> omega
  · rw [if_neg h0, if_pos hl]; unfold colThree; split_ifs <;> (try simp_all) <;> omega
  · rw [if_neg h0, if_neg hl]; unfold colThree; split_ifs <;> (try simp_all) <;> omega

lemma rowThree_row {n : Nat} (h4 : 4 ≤ n) {y : Nat} (hy : y < n) :
    (y = 0 → rowThree n (upIdx n y) + rowThree n y + rowThree n (downIdx n y)
        = 3) ∧
      (y ≠ 0 → rowThree n (upIdx n y) + rowThree n y
          + rowThree n (downIdx n y) ≤ 2) := by
  rw [upIdx_eq (by omega) hy, downIdx_eq (by omega) hy]
  by_cases h0 : y = 0 <;> by_cases hl : y = n - 1
  · exfalso; omega
  · rw [if_pos h0, if_neg hl]; unfold rowThree; split_ifs <;> (try simp_all) <;> omega
  · rw [if_neg h0, if_pos hl]; unfold rowThree; split_ifs <;> (try simp_all) <;> omega
  · rw [if_neg h0, if_neg hl]; unfold rowThree; split_ifs <;> (try simp_all) <;> omega

lemma colOne_col {n : Nat} (h4 : 4 ≤ n) {x : Nat} (hx : x < n) :
    colOne (upIdx n x) + colOne x + colOne (downIdx n x) = colThree x := by
  rw [upIdx_eq (by omega) hx, downIdx_eq (by omega) hx]
  by_cases h0 : x = 0 <;> by_cases hl : x = n - 1
  · exfalso; omega
  · rw [if_pos h0, if_neg hl]; unfold colOne colThree; split_ifs <;> (try simp_all) <;> omega
  · rw [if_neg h0, if_pos hl]; unfold colOne colThree; split_ifs <;> (try simp_all) <;> omega
  · rw [if_neg h0, if_neg hl]; unfold colOne colThree; split_ifs <;> (try simp_all) <;> omega

/-- On a torus with at least four rows and columns, one step turns the
horizontal origin blinker into its vertical phase. -/
lemma blinker_step1 {ny nx : Nat} (h4y : 4 ≤ ny) (h4x : 4 ≤ nx) {y x : Nat}
    (hy : y < ny) (hx : x < nx) :
    globalStep ny nx blinkerGrid y x = vblinkerGrid ny y x := by
  have hgoal : globalStep ny nx (fun a b => rowOne a * colThree b) y x
      = rowThree ny y * colOne x := by
    rw [globalStep_product (by omega) (by omega) rowOne colThree hy hx,
      rowOne_row h4y hy]
    obtain ⟨hc1, hc2⟩ := colThree_col h4x hx
    by_cases hx1 : x = 1
    · subst hx1
      rw [hc1 rfl, show colThree 1 = 1 from rfl, show colOne 1 = 1 from rfl]
      have hr : rowOne y = 0 ∨ rowOne y = 1 := by
        unfold rowOne; split_ifs <;> simp
      have hr3 : rowThree ny y = 0 ∨ rowThree ny y = 1 := by
        unfold rowThree; split_ifs <;> simp
      have hr31 : rowOne y = 1 → rowThree ny y = 1 := by
        unfold rowOne rowThree; split_ifs <;> (try simp_all) <;> omega
      rcases hr with h1 | h1 <;> rcases hr3 with h2 | h2
      · rw [h1, h2]; decide
      · rw [h1, h2]; decide
      · exact absurd (hr31 h1) (by omega)
      · rw [h1, h2]; decide
    · have hcol0 : colOne x = 0 := by unfold colOne; rw [if_neg hx1]
      rw [hcol0, Nat.mul_zero]
      have hC2 := hc2 hx1
      have hM1 : rowOne y * colThree x ≤ 1 := by
        unfold rowOne colThree; split_ifs <;> omega
      have hR1 : rowThree ny y ≤ 1 := by
        unfold rowThree; split_ifs <;> omega
      set M := rowOne y * colThree x with hM
      set R := rowThree ny y with hR
      set C := colThree (upIdx nx x) + colThree x + colThree (downIdx nx x)
        with hC
      clear_value M R C
      interval_cases M <;> interval_cases R <;> interval_cases C <;> decide
  calc globalStep ny nx blinkerGrid y x
      = globalStep ny nx (fun a b => rowOne a * colThree b) y x := by
        rw [blinkerGrid_prod]
    _ = rowThree ny y * colOne x := hgoal
    _ = vblinkerGrid ny y x := by
        unfold vblinkerGrid rowThree colOne; split_ifs <;> omega

/-- On a torus with at least four rows and columns, one step turns the
vertical blinker phase back into the horizontal origin blinker. -/
lemma blinker_step2 {ny nx : Nat} (h4y : 4 ≤ ny) (h4x : 4 ≤ nx) {y x : Nat}
    (hy : y < ny) (hx : x < nx) :
    globalStep ny nx (vblinkerGrid ny) y x = blinkerGrid y x := by
  have hgoal : globalStep ny nx (fun a b => rowThree ny a * colOne b) y x
      = rowOne y * colThree x := by
    rw [globalStep_product (by omega) (by omega) (rowThree ny) colOne hy hx,
      colOne_col h4x hx]
    obtain ⟨hr1, hr2⟩ := rowThree_row h4y hy
    by_cases hy0 : y = 0
    · subst hy0
      rw [hr1 rfl, show rowThree ny 0 = 1 from by
          unfold rowThree; rw [if_pos (Or.inl rfl)],
        show rowOne 0 = 1 from rfl]
      have hc1 : colOne x = 0 ∨ colOne x = 1 := by
        unfold colOne; split_ifs <;> simp
      have hc3 : colThree x = 0 ∨ colThree x = 1 := by
        unfold colThree; split_ifs <;> simp
      have hc13 : colOne x = 1 → colThree x = 1 := by
        unfold colOne colThree; split_ifs <;> (try simp_all) <;> omega
      rcases hc1 with h1 | h1 <;> rcases hc3 with h2 | h2
      · rw [h1, h2]; decide
      · rw [h1, h2]; decide
      · exact absurd (hc13 h1) (by omega)
      · rw [h1, h2]; decide
    · have hrow0 : rowOne y = 0 := by unfold rowOne; rw [if_neg hy0]
      rw [hrow0, Nat.zero_mul]
      have hR2 := hr2 hy0
      have hM1 : rowThree ny y * colOne x ≤ 1 := by
        unfold rowThree colOne; split_ifs <;> omega
      have hC1 : colThree x ≤ 1 := by
        unfold colThree; split_ifs <;> omega
      set M := rowThree ny y * colOne x with hM
      set R := rowThree ny (upIdx ny y) + rowThree ny y
        + rowThree ny (downIdx ny y) with hR
      set C := colThree x with hC
      clear_value M R C
      interval_cases M <;> interval_cases R <;> interval_cases C <;> decide
  calc globalStep ny nx (vblinkerGrid ny) y x
      = globalStep ny nx (fun a b => rowThree ny a * colOne b) y x := by
        rw [vblinkerGrid_prod]
    _ = rowOne y * colThree x := hgoal
    _ = blinkerGrid y x := by
        unfold blinkerGrid rowOne colThree; split_ifs <;> omega

/-- The global step only reads a grid within the torus range, so grids that
agree there step identically. -/
lemma globalStep_congr_on {ny nx : Nat} (hny : 0 < ny) (hnx : 0 < nx)
    {F H : Nat → Nat → Nat}
    (h : ∀ a b, a < ny → b < nx → F a b = H a b) {y x : Nat} (hy : y < ny)
    (hx : x < nx) :
    globalStep ny nx F y x = globalStep ny nx H y x := by
  unfold globalStep
  rw [h y x hy hx]
  congr 1
  unfold neighborCountGlobal
  congr 1
  apply List.map_congr_left
  intro d _
  exact h _ _ (pmod_lt _ hny) (pmod_lt _ hnx)

/-- The origin blinker returns to itself after two steps on a torus with
at least four rows and columns. -/
lemma blinker_two {ny nx : Nat} (h4y : 4 ≤ ny) (h4x : 4 ≤ nx) {y x : Nat}
    (hy : y < ny) (hx : x < nx) :
    globalIter ny nx blinkerGrid 2 y x = blinkerGrid y x := by
  show globalStep ny nx (globalIter ny nx blinkerGrid 1) y x = blinkerGrid y x
  have h1 : ∀ a b, a < ny → b < nx →
      globalIter ny nx blinkerGrid 1 a b = vblinkerGrid ny a b := by
    intro a b ha hb
    exact blinker_step1 h4y h4x ha hb
  rw [globalStep_congr_on (by omega) (by omega) h1 hy hx]
  exact blinker_step2 h4y h4x hy hx

/-- Counterexample to C8 as stated: on the degenerate 2×2 torus, the grid
containing exactly a 2×2 block (all four cells live, dead cells elsewhere
vacuously) is not invariant under the step — every cell sees eight wrapped
live neighbours and dies. -/
theorem claim8_counterexample :
    blockGrid 0 0 = 1 ∧ globalStep 2 2 blockGrid 0 0 = 0 := by
  constructor
  · decide
  · decide

/-- C8 as amended: on every torus with at least 3 rows and 3 columns, every
grid containing exactly a 2×2 block (any wrapped placement, i.e. any
translate of the origin block) is invariant under one global step; on every
torus with at least 4 rows and 4 columns, every grid containing exactly a
horizontal blinker returns to itself after two global steps. -/
theorem claim8_block_and_blinker :
    (∀ ny nx : Nat, 3 ≤ ny → 3 ≤ nx → ∀ (dy dx : Int) (y x : Nat),
      y < ny → x < nx →
        globalStep ny nx (translate ny nx dy dx blockGrid) y x
          = translate ny nx dy dx blockGrid y x) ∧
    (∀ ny nx : Nat, 4 ≤ ny → 4 ≤ nx → ∀ (dy dx : Int) (y x : Nat),
      y < ny → x < nx →
        globalIter ny nx (translate ny nx dy dx blinkerGrid) 2 y x
          = translate ny nx dy dx blinkerGrid y x) := by
  constructor
  · intro ny nx h3y h3x dy dx y x hy hx
    rw [globalStep_translate (by omega) (by omega)]
    show globalStep ny nx blockGrid (pmod ((y : Int) - dy) ny)
        (pmod ((x : Int) - dx) nx)
      = blockGrid (pmod ((y : Int) - dy) ny) (pmod ((x : Int) - dx) nx)
    exact block_still h3y h3x (pmod_lt _ (by omega)) (pmod_lt _ (by omega))
  · intro ny nx h4y h4x dy dx y x hy hx
    rw [globalIter_translate (by omega) (by omega) dy dx blinkerGrid 2 y x]
    show globalIter ny nx blinkerGrid 2 (pmod ((y : Int) - dy) ny)
        (pmod ((x : Int) - dx) nx)
      = blinkerGrid (pmod ((y : Int) - dy) ny) (pmod ((x : Int) - dx) nx)
    exact blinker_two h4y h4x (pmod_lt _ (by omega)) (pmod_lt _ (by omega))

/-- Witness for the amended C8 on a 5×5 torus, block and blinker both
translated by `(1, 2)`, checked at cell `(2, 3)`. -/
theorem claim8_witness :
    globalStep 5 5 (translate 5 5 1 2 blockGrid) 2 3
        = translate 5 5 1 2 blockGrid 2 3 ∧
      globalIter 5 5 (translate 5 5 1 2 blinkerGrid) 2 2 3
        = translate 5 5 1 2 blinkerGrid 2 3 :=
  ⟨claim8_block_and_blinker.1 5 5 (by decide) (by decide) 1 2 2 3
      (by decide) (by decide),
    claim8_block_and_blinker.2 5 5 (by decide) (by decide) 1 2 2 3
      (by decide) (by decide)⟩

end GOL
